import Mathlib

/-!
Shallow embedding of `scrape.py` (wm-course-data): a course-catalog scraper
that fetches term/subject lists, crawls search-result pages concurrently,
repairs malformed result tables, parses rows into `Course` records and
formats them for persistence.  Definitions are translated from the source;
theorems settle the specification claims.
-/

set_option autoImplicit false

namespace Scrape

/-- `Time` dataclass from the source: `{hour, minute}` built from two-digit
fields, hence naturals here. -/
structure Time where
  hour : Nat
  minute : Nat
  deriving DecidableEq, Repr

/-- `TimeSpan` dataclass.  The source field `end` is a Lean keyword, so it is
named `stop` here. -/
structure TimeSpan where
  start : Time
  stop : Time
  deriving DecidableEq, Repr

/-- `c` is an ASCII uppercase letter, the `[A-Z]` class of the source regex. -/
def isUpperAZ (c : Char) : Bool :=
  'A' ≤ c && c ≤ 'Z'

/-- `c` is an ASCII digit, the `\d` class of the source regex. -/
def isDigit (c : Char) : Bool :=
  '0' ≤ c && c ≤ '9'

/-- Numeric value of a digit character. -/
def digitVal (c : Char) : Nat :=
  c.toNat - 48

/-- Two-digit field value, e.g. `twoDigits '0' '9' = 9`. -/
def twoDigits (a b : Char) : Nat :=
  10 * digitVal a + digitVal b

/-- Model of `re.match` with the source pattern
`(?P<days>[A-Z]+):(?P<start_hour>\d{2})(?P<start_minute>\d{2})\-(?P<end_hour>\d{2})(?P<end_minute>\d{2})`
on one token.  `re.match` anchors at the start only, so any trailing
characters after the matched region are ignored.  Since `:` is not in
`[A-Z]`, the greedy `[A-Z]+` is equivalent to taking the maximal uppercase
run (backtracking to a shorter run would leave an uppercase letter where `:`
is required).  Returns the day letters and the parsed `TimeSpan`. -/
def matchToken (l : List Char) : Option (List Char × TimeSpan) :=
  let days := l.takeWhile isUpperAZ
  if days.isEmpty then none
  else
    match l.dropWhile isUpperAZ with
    | ':' :: a :: b :: c :: d :: '-' :: e :: f :: g :: h :: _ =>
      if (isDigit a && isDigit b && isDigit c && isDigit d &&
          isDigit e && isDigit f && isDigit g && isDigit h) then
        some (days,
          { start := { hour := twoDigits a b, minute := twoDigits c d }
            stop := { hour := twoDigits e f, minute := twoDigits g h } })
      else none
    | _ => none

/-- `course_times.split(' ')` with the `if t != ''` filter: the nonempty
tokens between spaces. -/
def tokensOf (s : String) : List (List Char) :=
  (s.toList.splitOn ' ').filter (fun t => ¬ t.isEmpty)

/-- Python `dict` update of one key on an insertion-ordered association list
(keys are unique): replace the value at the key's existing position if
present, otherwise append at the end. -/
def setD : List (Char × TimeSpan) → Char → TimeSpan → List (Char × TimeSpan)
  | [], d, sp => [(d, sp)]
  | p :: m, d, sp => if p.1 = d then (d, sp) :: m else p :: setD m d sp

/-- Python `dict` lookup. -/
def lookupD (m : List (Char × TimeSpan)) (d : Char) : Option TimeSpan :=
  (m.find? (fun p => p.1 = d)).map (fun p => p.2)

/-- One iteration of the `for time in ...` loop of `parse_time`: a
non-matching token is skipped (`continue`), a matching one performs
`times.update({day: time_span for day in days})`. -/
def timeStep (m : List (Char × TimeSpan)) (tok : List Char) :
    List (Char × TimeSpan) :=
  match matchToken tok with
  | none => m
  | some (days, sp) => days.foldl (fun m d => setD m d sp) m

/-- `parse_time` from the source: the dict built by folding `timeStep` over
the space-separated tokens, starting from `{}`. -/
def parse_time (course_times : String) : List (Char × TimeSpan) :=
  (tokensOf course_times).foldl timeStep []

/-- The Python exceptions the embedded fragment can raise. -/
inductive Err where
  /-- `IndexError`: `cells[i]` with `i` out of range. -/
  | indexError
  /-- `AttributeError`: `.find(...)` returned `None` and was dereferenced. -/
  | attrError
  /-- `ValueError`: `int()` applied to a non-integer string. -/
  | valueError
  /-- `TypeError`: subscripting a text node in `parse_select`. -/
  | typeError
  /-- The `Exception('some jobs did not complete successfully')` raised on
  timeout. -/
  | timeoutError
  deriving DecidableEq, Repr

/-- A `<td>` cell as `parse_table` sees it: the text of its first `<a>`
descendant when one exists, and its text content. -/
structure Cell where
  link : Option String
  text : String
  deriving DecidableEq, Repr

/-- The `Course` dataclass from the source.  The `time` dict is the
insertion-ordered association list produced by `parse_time`. -/
structure Course where
  crn : String
  id : String
  term : String
  term_code : String
  subject : String
  subject_code : String
  attributes : List String
  title : String
  instructor : String
  credit_hours : String
  time : List (Char × TimeSpan)
  proj_enr : Int
  curr_enr : Int
  seats_avail : String
  status : String
  deriving DecidableEq, Repr

/-- Digits to the natural number they denote, most significant first. -/
def natFromDigits (ds : List Char) : Nat :=
  ds.foldl (fun n c => 10 * n + digitVal c) 0

/-- `c` is ASCII whitespace, as stripped by Python `int()`. -/
def isWs (c : Char) : Bool :=
  c = ' ' || c = '\t' || c = '\n' || c = '\r'

/-- Strip leading and trailing whitespace. -/
def stripWs (l : List Char) : List Char :=
  ((l.dropWhile isWs).reverse.dropWhile isWs).reverse

/-- Model of Python `int(str)`: surrounding whitespace is stripped, an
optional single sign is allowed, and the remainder must be a nonempty digit
run; otherwise `ValueError` (here `none`).  (Python additionally accepts
underscore digit separators; none of the inputs considered here use them.) -/
def pyInt (s : String) : Option Int :=
  match stripWs s.toList with
  | [] => none
  | '-' :: ds =>
    if ¬ ds.isEmpty && ds.all isDigit then some (-(natFromDigits ds : Int)) else none
  | '+' :: ds =>
    if ¬ ds.isEmpty && ds.all isDigit then some (natFromDigits ds : Int) else none
  | ds =>
    if ds.all isDigit then some (natFromDigits ds : Int) else none

/-- `cells[i]`: `IndexError` when out of range. -/
def getCell (cells : List Cell) (i : Nat) : Except Err Cell :=
  match cells.get? i with
  | some c => Except.ok c
  | none => Except.error Err.indexError

/-- Unicode NFC normalization (`unicodedata.normalize('NFC', ·)`).  On the
fragment embedded here it is modeled as the identity; no claim in this
development concerns normalization of decomposed sequences. -/
def nfc (s : String) : String := s

/-- `cells[0].find('a').text`: the text of the cell's `<a>` descendant,
`AttributeError` when `find` returned `None`. -/
def linkText (c : Cell) : Except Err String :=
  match c.link with
  | some a => Except.ok a
  | none => Except.error Err.attrError

/-- `int(s)`: the parsed integer, `ValueError` on a non-integer string. -/
def toIntE (s : String) : Except Err Int :=
  match pyInt s with
  | some n => Except.ok n
  | none => Except.error Err.valueError

/-- The body of the `for row in ... find_all('tr')` loop of `parse_table`:
builds one `Course` from the row's `<td>` cells, raising `IndexError` on a
missing cell, `AttributeError` when cell 0 has no `<a>`, and `ValueError`
when cell 7 or 8 is not an integer. -/
def parse_row (term term_code subject subject_code : String)
    (cells : List Cell) : Except Err Course := do
  let c0 ← getCell cells 0
  let crn ← linkText c0
  let c1 ← getCell cells 1
  let c2 ← getCell cells 2
  let attributes := (c2.text.splitOn ", ").map nfc
  let c3 ← getCell cells 3
  let c4 ← getCell cells 4
  let c5 ← getCell cells 5
  let c6 ← getCell cells 6
  let time := parse_time c6.text
  let c7 ← getCell cells 7
  let proj_enr ← toIntE c7.text
  let c8 ← getCell cells 8
  let curr_enr ← toIntE c8.text
  let c9 ← getCell cells 9
  let c10 ← getCell cells 10
  Except.ok
    { crn := crn, id := c1.text, term := term, term_code := term_code
      subject := subject, subject_code := subject_code
      attributes := attributes, title := c3.text, instructor := c4.text
      credit_hours := c5.text, time := time
      proj_enr := proj_enr, curr_enr := curr_enr
      seats_avail := c9.text, status := c10.text }

/-- `parse_table` from the source, on the rows recovered from the markup:
appends one `Course` per row in order; the first raised exception aborts the
whole table (the partially built `rows` list is lost). -/
def parse_table (term term_code subject subject_code : String) :
    List (List Cell) → Except Err (List Course)
  | [] => Except.ok []
  | cells :: rest => do
    let c ← parse_row term term_code subject subject_code cells
    let cs ← parse_table term term_code subject subject_code rest
    Except.ok (c :: cs)

/-! ### Markup tokens and repair

The response markup around the results table, abstracted to the tokens the
two `re.sub` calls and the extractor look at: the `<tbody>` open/close
markers, `<tr>` open/close markers and `<td>` cells (each cell atomic, its
content carried as a `Cell`). -/

/-- Markup tokens of the results-table fragment. -/
inductive Tok where
  | tbodyOpen
  | tbodyClose
  | trOpen
  | trClose
  | td (c : Cell)
  deriving DecidableEq, Repr

/-- `re.sub(r'<tbody>', '<tbody><tr>', ·)`: a row-opening marker is inserted
after every body-opening marker. -/
def sub_tbody : List Tok → List Tok
  | [] => []
  | Tok.tbodyOpen :: rest => Tok.tbodyOpen :: Tok.trOpen :: sub_tbody rest
  | t :: rest => t :: sub_tbody rest

/-- `re.sub(r'</tr>\s*<td>', '</tr><tr><td>', ·)`: a row-opening marker is
inserted before every cell-opening marker that immediately follows a
row-closing marker (whitespace between the two is irrelevant in the token
view); scanning resumes after the replaced region, as `re.sub` does. -/
def sub_trtd : List Tok → List Tok
  | Tok.trClose :: Tok.td c :: rest => Tok.trClose :: Tok.trOpen :: Tok.td c :: sub_trtd rest
  | t :: rest => t :: sub_trtd rest
  | [] => []

/-- The markup repair performed by `fetch`: both substitutions in source
order. -/
def repair (l : List Tok) : List Tok :=
  sub_trtd (sub_tbody l)

/-- `len(soup.find(id='results').find('table').find('tbody').find_all('td'))`:
the number of cell tokens. -/
def countTd (l : List Tok) : Nat :=
  l.countP (fun t => match t with | Tok.td _ => true | _ => false)

/-- Row grouping pass of the extractor on a well-formed token stream
(`find_all('tr')` with `find_all('td')` per row): the second argument is
`none` between rows and `some cs` inside a row with cells `cs` collected so
far. -/
def extractGo : List Tok → Option (List Cell) → Option (List (List Cell))
  | Tok.trOpen :: rest, none => extractGo rest (some [])
  | Tok.tbodyClose :: _, none => some []
  | Tok.td c :: rest, some cs => extractGo rest (some (cs ++ [c]))
  | Tok.trClose :: rest, some cs => (extractGo rest none).map (fun rs => cs :: rs)
  | _, _ => none

/-- Structural extraction: locate the body-opening marker and group the rows.
`none` models the `AttributeError`/missing-structure failure of the
`find(...)` chain. -/
def extract (l : List Tok) : Option (List (List Cell)) :=
  match l with
  | Tok.tbodyOpen :: rest => extractGo rest none
  | _ => none

/-- Extraction followed by `parse_table`. -/
def extract_courses (term term_code subject subject_code : String)
    (l : List Tok) : Except Err (List Course) :=
  match extract l with
  | none => Except.error Err.attrError
  | some rows => parse_table term term_code subject subject_code rows

/-- The per-pair task body `f` of `fetch`, after the HTTP response is in
hand: repair the markup when the body contains at least one cell, then
extract and parse. -/
def task_run (term term_code subject subject_code : String)
    (l : List Tok) : Except Err (List Course) :=
  if 0 < countTd l then
    extract_courses term term_code subject subject_code (repair l)
  else
    extract_courses term term_code subject subject_code l

/-- A table row as the upstream site renders it when well formed:
`<tr>` cells `</tr>`. -/
def renderRow (cells : List Cell) : List Tok :=
  Tok.trOpen :: cells.map Tok.td ++ [Tok.trClose]

/-- A well-formed results body for the given rows. -/
def render_wellformed (rows : List (List Cell)) : List Tok :=
  Tok.tbodyOpen :: rows.flatMap renderRow ++ [Tok.tbodyClose]

/-- A table row as the upstream site actually renders it: the cell run with
its closing marker but no opening marker. -/
def renderRowMal (cells : List Cell) : List Tok :=
  cells.map Tok.td ++ [Tok.trClose]

/-- The malformed results body the upstream site emits for the given rows
(no row-opening markers); for zero rows, the empty body. -/
def render_malformed (rows : List (List Cell)) : List Tok :=
  Tok.tbodyOpen :: rows.flatMap renderRowMal ++ [Tok.tbodyClose]

/-! ### Crawl orchestration -/

/-- A term or subject descriptor `{name, code}` from `parse_select`. -/
structure Desc where
  name : String
  code : String
  deriving DecidableEq, Repr

/-- The (term, subject) pairs `fetch` actually submits to the pool:
`for term in terms[:1]: for subject in subjects[:10]` (the source carries a
`FIXME: remove the bounds` on the truncation). -/
def submitted_pairs (terms subjects : List Desc) : List (Desc × Desc) :=
  (terms.take 1).flatMap (fun t => (subjects.take 10).map (fun s => (t, s)))

/-- The full cross product of the descriptor sequences, as the specification
words it ("construct the full cross product of (term, subject) pairs");
stated for comparison with `submitted_pairs`. -/
def cross_product (terms subjects : List Desc) : List (Desc × Desc) :=
  terms.flatMap (fun t => subjects.map (fun s => (t, s)))

/-- One submitted task as the wait barrier sees it: the time at which it
completes and the outcome it would deliver through `Future.result()`. -/
structure TaskRun where
  ctime : Nat
  result : Except Err (List Course)
  deriving Repr

/-- `[f.result(timeout=1) for f in finished]`: each task's outcome in turn,
a task that raised an exception re-raising it here. -/
def collect_results : List TaskRun → Except Err (List (List Course))
  | [] => Except.ok []
  | t :: ts => do
    let r ← t.result
    let rs ← collect_results ts
    Except.ok (r :: rs)

/-- The collection tail of `fetch`: `futures.wait(fs, timeout=60)` leaves
pending every task not completed by the deadline; a nonempty pending set
raises the timeout exception, otherwise every `f.result()` is taken (a task
that raised re-raises here) and the per-task course lists are flattened. -/
def fetch_gather (deadline : Nat) (tasks : List TaskRun) :
    Except Err (List Course) :=
  if tasks.any (fun t => deadline < t.ctime) then
    Except.error Err.timeoutError
  else do
    let sets ← collect_results tasks
    Except.ok sets.flatten

/-! ### Landing-page select parsing -/

/-- A child node of a selection-list element: either a bare text node or an
option element with its `value` attribute and its text. -/
inductive Child where
  | text (s : String)
  | opt (value : String) (name : String)
  deriving DecidableEq, Repr

/-- One iteration of the `for el in soup.find(id=id_)` loop of
`parse_select`: `el != "\n"` skips exactly the newline text node (any other
text node passes the test and then raises `TypeError` at `el['value']`);
an option with `value` `"0"` is skipped; any other option contributes
`{name, code}`. -/
def selStep (el : Child) : Except Err (Option Desc) :=
  match el with
  | Child.text s => if s = "\n" then Except.ok none else Except.error Err.typeError
  | Child.opt v n => if v = "0" then Except.ok none else Except.ok (some { name := n, code := v })

/-- `parse_select` from the source: the kept entries in document order; the
first raised exception aborts the whole call. -/
def parse_select : List Child → Except Err (List Desc)
  | [] => Except.ok []
  | el :: rest => do
    let o ← selStep el
    let out ← parse_select rest
    Except.ok
      (match o with
       | some d => d :: out
       | none => out)

/-! ### Persistence formatting -/

/-- `list_to_db_array` from the source:
`'\x7b' + ', '.join(f'"s"' for s in li) + '\x7d'`. -/
def list_to_db_array (li : List String) : String :=
  "\x7b" ++ String.intercalate ", " (li.map (fun s => "\"" ++ s ++ "\"")) ++ "\x7d"

/-- `dataclasses.asdict` of a `Time`: the `{hour, minute}` JSON object. -/
structure TimeDoc where
  hour : Nat
  minute : Nat
  deriving DecidableEq, Repr

/-- `dataclasses.asdict` of a `TimeSpan`: the `{start, end}` JSON object. -/
structure SpanDoc where
  start : TimeDoc
  stop : TimeDoc
  deriving DecidableEq, Repr

/-- `asdict` on a `Time`. -/
def timeDoc (t : Time) : TimeDoc :=
  { hour := t.hour, minute := t.minute }

/-- `asdict` on a `TimeSpan`. -/
def spanDoc (ts : TimeSpan) : SpanDoc :=
  { start := timeDoc ts.start, stop := timeDoc ts.stop }

/-- `times_to_json` from the source: the JSON document `json.dumps`
serializes, `{day: dataclasses.asdict(time_span) for day, time_span in
times.items()}` — keyed by the (single-character) day strings, modeled as
the structured document rather than its textual rendering. -/
def times_to_json (times : List (Char × TimeSpan)) : List (String × SpanDoc) :=
  times.map (fun p => (String.mk [p.1], spanDoc p.2))

/-- Deserializer for the document `times_to_json` produces: each key must be
a single-character day string, each value a start/end hour/minute object. -/
def json_to_times : List (String × SpanDoc) → Option (List (Char × TimeSpan))
  | [] => some []
  | p :: rest =>
    match p.1.toList, json_to_times rest with
    | [c], some ts =>
      some ((c,
        { start := { hour := p.2.start.hour, minute := p.2.start.minute }
          stop := { hour := p.2.stop.hour, minute := p.2.stop.minute } }) :: ts)
    | _, _ => none

/-- The last element of `l` when `l` is nonempty, else the fallback `y`. -/
def lastOr {α : Type} (l : List α) (y : Option α) : Option α :=
  match l.getLast? with
  | some x => some x
  | none => y

/-- The spans of those matching tokens of `s` that list day `d`, in token
order. -/
def daySpans (s : String) (d : Char) : List TimeSpan :=
  (((tokensOf s).filterMap matchToken).filter
    (fun p => decide (d ∈ p.1))).map (fun p => p.2)

/-- Concatenation with a leading separator per element:
`sepJoin s [a, b] = s ++ a ++ s ++ b`.  Recursion-friendly description of
the effect of `String.intercalate`'s accumulator loop. -/
def sepJoin (s : String) : List String → String
  | [] => ""
  | a :: as => s ++ a ++ sepJoin s as

/-- The entries the specification says the Catalog Index Fetcher keeps: the
options in document order whose code is not the sentinel `"0"` (stated from
the spec's words, for comparison with `parse_select`). -/
def keptEntries (children : List Child) : List Desc :=
  children.filterMap (fun el =>
    match el with
    | Child.text _ => none
    | Child.opt v n => if v = "0" then none else some { name := n, code := v })

/-! ## Time-Span Parser lemmas -/

theorem lookupD_nil (d : Char) : lookupD [] d = none := rfl

theorem lookupD_cons (p : Char × TimeSpan) (m : List (Char × TimeSpan))
    (d : Char) :
    lookupD (p :: m) d = if p.1 = d then some p.2 else lookupD m d := by
  by_cases h : p.1 = d <;> simp [lookupD, List.find?_cons, h]

theorem lookupD_setD (m : List (Char × TimeSpan)) (d' d : Char)
    (sp : TimeSpan) :
    lookupD (setD m d' sp) d = if d = d' then some sp else lookupD m d := by
  induction m with
  | nil =>
    by_cases h : d = d'
    · simp [setD, lookupD_cons, h]
    · simp [setD, lookupD_cons, lookupD_nil, h, Ne.symm h]
  | cons p m ih =>
    by_cases hp : p.1 = d'
    · have hs : setD (p :: m) d' sp = (d', sp) :: m := by simp [setD, hp]
      rw [hs, lookupD_cons, lookupD_cons]
      by_cases h : d = d'
      · simp [h]
      · have h' : ¬ d' = d := fun hq => h hq.symm
        rw [if_neg h', if_neg h, if_neg (by rw [hp]; exact h')]
    · have hs : setD (p :: m) d' sp = p :: setD m d' sp := by simp [setD, hp]
      rw [hs, lookupD_cons, ih, lookupD_cons]
      by_cases h : d = d'
      · subst h
        rw [if_neg hp, if_pos rfl, if_pos rfl]
      · rw [if_neg h, if_neg h]

theorem lookupD_foldl_setD (days : List Char) (sp : TimeSpan) :
    ∀ (m : List (Char × TimeSpan)) (d : Char),
    lookupD (days.foldl (fun m d => setD m d sp) m) d
      = if d ∈ days then some sp else lookupD m d := by
  induction days with
  | nil => intro m d; simp
  | cons d0 rest ih =>
    intro m d
    simp only [List.foldl_cons]
    rw [ih]
    by_cases hr : d ∈ rest
    · simp [hr, List.mem_cons]
    · rw [if_neg hr, lookupD_setD]
      by_cases h0 : d = d0 <;> simp [h0, hr, List.mem_cons]

theorem lookupD_timeStep (m : List (Char × TimeSpan)) (tok : List Char)
    (d : Char) :
    lookupD (timeStep m tok) d =
      match matchToken tok with
      | none => lookupD m d
      | some (days, sp) => if d ∈ days then some sp else lookupD m d := by
  cases h : matchToken tok with
  | none => simp [timeStep, h]
  | some p =>
    obtain ⟨days, sp⟩ := p
    simp [timeStep, h, lookupD_foldl_setD]

theorem lastOr_nil {α : Type} (y : Option α) : lastOr [] y = y := rfl

theorem lastOr_cons_some {α : Type} (x : α) (l : List α) (y : Option α) :
    lastOr l (some x) = lastOr (x :: l) y := by
  cases l with
  | nil => rfl
  | cons a l' =>
    cases h : (a :: l').getLast? with
    | none => exact absurd h (by simp)
    | some z => simp [lastOr, h, List.getLast?_cons_cons]

theorem lookup_tokens_foldl (toks : List (List Char)) :
    ∀ (m : List (Char × TimeSpan)) (d : Char),
    lookupD (toks.foldl timeStep m) d
      = lastOr (((toks.filterMap matchToken).filter
          (fun p => decide (d ∈ p.1))).map (fun p => p.2)) (lookupD m d) := by
  induction toks with
  | nil => intro m d; rfl
  | cons t rest ih =>
    intro m d
    simp only [List.foldl_cons]
    rw [ih]
    cases h : matchToken t with
    | none =>
      have hstep : timeStep m t = m := by simp [timeStep, h]
      rw [List.filterMap_cons_none h, hstep]
    | some p =>
      obtain ⟨days, sp⟩ := p
      rw [List.filterMap_cons_some h]
      by_cases hd : d ∈ days
      · have hstep : lookupD (timeStep m t) d = some sp := by
          rw [lookupD_timeStep, h]
          simp [hd]
        rw [hstep, List.filter_cons]
        rw [if_pos (by simpa using hd), List.map_cons]
        exact lastOr_cons_some sp _ _
      · have hstep : lookupD (timeStep m t) d = lookupD m d := by
          rw [lookupD_timeStep, h]
          simp [hd]
        rw [hstep, List.filter_cons, if_neg (by simpa using hd)]

theorem digitVal_le (c : Char) (h : isDigit c = true) : digitVal c ≤ 9 := by
  unfold isDigit at h
  rw [Bool.and_eq_true] at h
  have h2 : c ≤ '9' := of_decide_eq_true h.2
  have h3 : c.val.toNat ≤ ('9' : Char).val.toNat :=
    UInt32.le_def.mp (Char.le_def.mp h2)
  have h9 : ('9' : Char).val.toNat = 57 := by decide
  unfold digitVal
  have : c.toNat = c.val.toNat := rfl
  omega

theorem twoDigits_le (a b : Char) (ha : isDigit a = true)
    (hb : isDigit b = true) : twoDigits a b ≤ 99 := by
  have h1 := digitVal_le a ha
  have h2 := digitVal_le b hb
  unfold twoDigits
  omega

theorem matchToken_bounds (tok days : List Char) (sp : TimeSpan)
    (h : matchToken tok = some (days, sp)) :
    sp.start.hour ≤ 99 ∧ sp.start.minute ≤ 99 ∧
    sp.stop.hour ≤ 99 ∧ sp.stop.minute ≤ 99 := by
  simp only [matchToken] at h
  by_cases hemp : (tok.takeWhile isUpperAZ).isEmpty
  · rw [if_pos hemp] at h
    exact absurd h (by simp)
  · rw [if_neg hemp] at h
    split at h
    · split at h
      · rename_i hdig
        simp only [Option.some.injEq, Prod.mk.injEq] at h
        obtain ⟨-, rfl⟩ := h
        simp only [Bool.and_eq_true] at hdig
        obtain ⟨⟨⟨⟨⟨⟨⟨h1, h2⟩, h3⟩, h4⟩, h5⟩, h6⟩, h7⟩, h8⟩ := hdig
        exact ⟨twoDigits_le _ _ h1 h2, twoDigits_le _ _ h3 h4,
               twoDigits_le _ _ h5 h6, twoDigits_le _ _ h7 h8⟩
      · exact absurd h (by simp)
    · exact absurd h (by simp)

/-! ## Claim theorems: Time-Span Parser -/

/-- C4: every schedule-string token that does not match the
day-letters-then-HHMM-HHMM pattern is silently skipped and contributes
nothing to the mapping, and a matching token maps each of its day letters to
the token's time span; in particular `parse_time "TBA"` is the empty mapping
and `parse_time "MWF:0900-0950"` maps M, W and F to 9:00–9:50. -/
theorem C4_skip_nonmatching_tokens :
    (∀ (m : List (Char × TimeSpan)) (tok : List Char),
        matchToken tok = none → timeStep m tok = m)
    ∧ (∀ (m : List (Char × TimeSpan)) (tok days : List Char) (sp : TimeSpan),
        matchToken tok = some (days, sp) →
        ∀ d ∈ days, lookupD (timeStep m tok) d = some sp)
    ∧ parse_time "TBA" = []
    ∧ parse_time "MWF:0900-0950" =
        [('M', { start := { hour := 9, minute := 0 }
                 stop := { hour := 9, minute := 50 } }),
         ('W', { start := { hour := 9, minute := 0 }
                 stop := { hour := 9, minute := 50 } }),
         ('F', { start := { hour := 9, minute := 0 }
                 stop := { hour := 9, minute := 50 } })] := by
  refine ⟨fun m tok h => by simp [timeStep, h], fun m tok days sp h d hd => ?_, by decide, by decide⟩
  rw [lookupD_timeStep, h]
  simp [hd]

/-- Witness for C4: the non-matching token `TBA` leaves the mapping
unchanged, and the matching token `MWF:0900-0950` maps `W` to 9:00–9:50. -/
theorem C4_skip_nonmatching_tokens_witness :
    timeStep [] ['T', 'B', 'A'] = []
    ∧ lookupD (timeStep [] "MWF:0900-0950".toList) 'W' =
        some { start := { hour := 9, minute := 0 }
               stop := { hour := 9, minute := 50 } } :=
  ⟨C4_skip_nonmatching_tokens.1 [] ['T', 'B', 'A'] (by decide),
   C4_skip_nonmatching_tokens.2.1 [] "MWF:0900-0950".toList ['M', 'W', 'F']
     { start := { hour := 9, minute := 0 }, stop := { hour := 9, minute := 50 } }
     (by decide) 'W' (by decide)⟩

/-- C5: when a day letter appears in several matching tokens, the mapping
holds the span of the last such token (last-write-wins): the lookup of any
day equals the last element of the span list of the matching tokens naming
that day; in particular `parse_time "M:0900-0950 M:1000-1050"` maps `M` to
10:00–10:50. -/
theorem C5_last_write_wins :
    (∀ (s : String) (d : Char),
        lookupD (parse_time s) d = lastOr (daySpans s d) none)
    ∧ parse_time "M:0900-0950 M:1000-1050" =
        [('M', { start := { hour := 10, minute := 0 }
                 stop := { hour := 10, minute := 50 } })] := by
  refine ⟨fun s d => ?_, by decide⟩
  unfold parse_time daySpans
  exact lookup_tokens_foldl (tokensOf s) [] d

/-- C7 counterexample: the claim that every `Time` in the mapping satisfies
`hour ≤ 23` and `minute ≤ 59` fails on `parse_time "M:2500-2661"`, whose
span for `M` has start hour 25, stop hour 26 and stop minute 61 — the parser
performs no range validation. -/
theorem C7_counterexample :
    ∃ sp : TimeSpan, lookupD (parse_time "M:2500-2661") 'M' = some sp ∧
      ¬ (sp.start.hour ≤ 23 ∧ sp.start.minute ≤ 59 ∧
         sp.stop.hour ≤ 23 ∧ sp.stop.minute ≤ 59) :=
  ⟨{ start := { hour := 25, minute := 0 }, stop := { hour := 26, minute := 61 } },
   by decide, by decide⟩

/-- C7 amended: every `Time` value in a mapping produced by the Time-Span
Parser satisfies `0 ≤ hour ≤ 99` and `0 ≤ minute ≤ 99` (hour and minute are
parsed from exactly two digits and not range-checked; the lower bound is
inherent in the `Nat` representation). -/
theorem C7_amended_two_digit_bounds (s : String) (d : Char) (sp : TimeSpan)
    (h : lookupD (parse_time s) d = some sp) :
    sp.start.hour ≤ 99 ∧ sp.start.minute ≤ 99 ∧
    sp.stop.hour ≤ 99 ∧ sp.stop.minute ≤ 99 := by
  unfold parse_time at h
  rw [lookup_tokens_foldl (tokensOf s) [] d] at h
  unfold lastOr at h
  split at h
  · rename_i x hlast
    simp only [Option.some.injEq] at h
    subst h
    have hmem := List.mem_of_getLast?_eq_some hlast
    simp only [List.mem_map, List.mem_filter, List.mem_filterMap] at hmem
    obtain ⟨⟨days, spx⟩, ⟨⟨tok, _, htok⟩, -⟩, rfl⟩ := hmem
    exact matchToken_bounds tok days spx htok
  · exact absurd h (by simp [lookupD])

/-- Witness for C7 amended: the span parsed from `"M:0900-0950"` for `M` is
within the two-digit bounds. -/
theorem C7_amended_two_digit_bounds_witness :
    ({ start := { hour := 9, minute := 0 }
       stop := { hour := 9, minute := 50 } } : TimeSpan).start.hour ≤ 99 ∧
    ({ start := { hour := 9, minute := 0 }
       stop := { hour := 9, minute := 50 } } : TimeSpan).start.minute ≤ 99 ∧
    ({ start := { hour := 9, minute := 0 }
       stop := { hour := 9, minute := 50 } } : TimeSpan).stop.hour ≤ 99 ∧
    ({ start := { hour := 9, minute := 0 }
       stop := { hour := 9, minute := 50 } } : TimeSpan).stop.minute ≤ 99 :=
  C7_amended_two_digit_bounds "M:0900-0950" 'M'
    { start := { hour := 9, minute := 0 }, stop := { hour := 9, minute := 50 } }
    (by decide)

theorem takeWhile_all_append (p : Char → Bool) (l : List Char) (y : Char)
    (rest : List Char) (hl : ∀ x ∈ l, p x = true) (hy : p y = false) :
    (l ++ y :: rest).takeWhile p = l ∧ (l ++ y :: rest).dropWhile p = y :: rest := by
  induction l with
  | nil => simp [List.takeWhile_cons, List.dropWhile_cons, hy]
  | cons a l ih =>
    have ha := hl a (List.mem_cons_self a l)
    have ih' := ih (fun x hx => hl x (List.mem_cons_of_mem a hx))
    simp only [List.cons_append, List.takeWhile_cons, List.dropWhile_cons, ha,
      ih'.1, ih'.2]
    simp

/-- C10: `re.match` anchors at the start only, so a token consisting of a
valid day-letters`:HHMM-HHMM` region followed by arbitrary trailing
characters is accepted and parsed exactly as if the trailing characters were
absent; in particular `parse_time "MWF:0900-0950x"` equals
`parse_time "MWF:0900-0950"`. -/
theorem C10_match_ignores_trailing :
    (∀ (ds : List Char) (a b c d e f g h : Char) (suffix : List Char),
        ds ≠ [] → (∀ x ∈ ds, isUpperAZ x = true) →
        isDigit a = true → isDigit b = true → isDigit c = true →
        isDigit d = true → isDigit e = true → isDigit f = true →
        isDigit g = true → isDigit h = true →
        matchToken (ds ++ ':' :: a :: b :: c :: d :: '-' :: e :: f :: g :: h :: suffix)
          = some (ds,
              { start := { hour := twoDigits a b, minute := twoDigits c d }
                stop := { hour := twoDigits e f, minute := twoDigits g h } }))
    ∧ parse_time "MWF:0900-0950x" = parse_time "MWF:0900-0950" := by
  refine ⟨fun ds a b c d e f g h suffix hne hup ha hb hc hd he hf hg hh => ?_, by decide⟩
  have hcolon : isUpperAZ ':' = false := by decide
  obtain ⟨htw, hdw⟩ := takeWhile_all_append isUpperAZ ds ':'
    (a :: b :: c :: d :: '-' :: e :: f :: g :: h :: suffix) hup hcolon
  simp only [matchToken, htw, hdw]
  rw [if_neg (by simpa using hne)]
  simp [ha, hb, hc, hd, he, hf, hg, hh]

/-- Witness for C10: the token `MWF:0900-0950x` (trailing `x`) is accepted
and parsed to the 9:00–9:50 span for M, W, F. -/
theorem C10_match_ignores_trailing_witness :
    matchToken ("MWF:0900-0950x".toList)
      = some (['M', 'W', 'F'],
          { start := { hour := twoDigits '0' '9', minute := twoDigits '0' '0' }
            stop := { hour := twoDigits '0' '9', minute := twoDigits '5' '0' } }) := by
  have := C10_match_ignores_trailing.1 ['M', 'W', 'F'] '0' '9' '0' '0' '0' '9' '5' '0'
    ['x'] (by decide) (by decide) (by decide) (by decide) (by decide) (by decide)
    (by decide) (by decide) (by decide) (by decide)
  exact this

/-! ## Claim theorems: Crawl Orchestrator -/

/-- C1: the claim that every (term, subject) pair of the full cross product
is executed by exactly one task fails on the code: `fetch` iterates
`terms[:1]` and `subjects[:10]` (the source marks the truncation
`FIXME: remove the bounds`), so with two fetched terms and one subject the
pair (second term, subject) is never submitted. -/
theorem C1_cross_product_truncated :
    submitted_pairs
        [{ name := "Fall 2023", code := "20233" },
         { name := "Spring 2024", code := "20241" }]
        [{ name := "Computer Science", code := "CSCI" }]
      = [({ name := "Fall 2023", code := "20233" },
          { name := "Computer Science", code := "CSCI" })]
    ∧ cross_product
        [{ name := "Fall 2023", code := "20233" },
         { name := "Spring 2024", code := "20241" }]
        [{ name := "Computer Science", code := "CSCI" }]
      = [({ name := "Fall 2023", code := "20233" },
          { name := "Computer Science", code := "CSCI" }),
         ({ name := "Spring 2024", code := "20241" },
          { name := "Computer Science", code := "CSCI" })]
    ∧ ({ name := "Spring 2024", code := "20241" },
        { name := "Computer Science", code := "CSCI" }) ∉
        submitted_pairs
          [{ name := "Fall 2023", code := "20233" },
           { name := "Spring 2024", code := "20241" }]
          [{ name := "Computer Science", code := "CSCI" }] := by
  refine ⟨by decide, by decide, by decide⟩

/-- C2: if any submitted task has not completed when the global 60-unit
deadline elapses, `fetch` fails with the timeout exception and returns no
course data at all, not even the results of the tasks that did complete. -/
theorem C2_timeout_fail_fast (tasks : List TaskRun) (t : TaskRun)
    (hmem : t ∈ tasks) (hlate : 60 < t.ctime) :
    fetch_gather 60 tasks = Except.error Err.timeoutError := by
  unfold fetch_gather
  rw [if_pos]
  exact List.any_eq_true.mpr ⟨t, hmem, by simpa using hlate⟩

/-- Witness for C2: one task completed at time 5 with results, the other at
time 61; the whole run fails with the timeout error. -/
theorem C2_timeout_fail_fast_witness :
    fetch_gather 60
        [{ ctime := 5, result := Except.ok [] },
         { ctime := 61, result := Except.ok [] }]
      = Except.error Err.timeoutError :=
  C2_timeout_fail_fast _ { ctime := 61, result := Except.ok [] }
    (List.mem_cons_of_mem _ (List.mem_cons_self _ _)) (by decide)

/-! ## Markup-repair lemmas -/

theorem sub_trtd_td (c : Cell) (l : List Tok) :
    sub_trtd (Tok.td c :: l) = Tok.td c :: sub_trtd l := rfl

theorem sub_trtd_trOpen (l : List Tok) :
    sub_trtd (Tok.trOpen :: l) = Tok.trOpen :: sub_trtd l := rfl

theorem sub_trtd_tbodyOpen (l : List Tok) :
    sub_trtd (Tok.tbodyOpen :: l) = Tok.tbodyOpen :: sub_trtd l := rfl

theorem sub_trtd_trClose_td (c : Cell) (l : List Tok) :
    sub_trtd (Tok.trClose :: Tok.td c :: l)
      = Tok.trClose :: Tok.trOpen :: Tok.td c :: sub_trtd l := rfl

theorem sub_trtd_trClose_end :
    sub_trtd [Tok.trClose, Tok.tbodyClose] = [Tok.trClose, Tok.tbodyClose] := rfl

theorem sub_tbody_cons_open (l : List Tok) :
    sub_tbody (Tok.tbodyOpen :: l)
      = Tok.tbodyOpen :: Tok.trOpen :: sub_tbody l := rfl

theorem extractGo_trOpen (l : List Tok) :
    extractGo (Tok.trOpen :: l) none = extractGo l (some []) := rfl

theorem extractGo_trClose (l : List Tok) (cs : List Cell) :
    extractGo (Tok.trClose :: l) (some cs)
      = (extractGo l none).map (fun rs => cs :: rs) := rfl

theorem extractGo_close (l : List Tok) :
    extractGo (Tok.tbodyClose :: l) none = some [] := rfl

theorem sub_tbody_eq_self (l : List Tok) (h : ∀ t ∈ l, t ≠ Tok.tbodyOpen) :
    sub_tbody l = l := by
  induction l with
  | nil => rfl
  | cons t rest ih =>
    have ht := h t (List.mem_cons_self t rest)
    have ih' := ih (fun x hx => h x (List.mem_cons_of_mem t hx))
    cases t <;> simp [sub_tbody, ih'] at ht ⊢

theorem malformed_body_no_open (rows : List (List Cell)) :
    ∀ t ∈ rows.flatMap renderRowMal ++ [Tok.tbodyClose], t ≠ Tok.tbodyOpen := by
  intro t ht
  rcases List.mem_append.mp ht with hm | hm
  · obtain ⟨r, -, hr⟩ := List.mem_flatMap.mp hm
    unfold renderRowMal at hr
    rcases List.mem_append.mp hr with hc | hc
    · obtain ⟨c, -, rfl⟩ := List.mem_map.mp hc
      simp
    · simp only [List.mem_singleton] at hc
      subst hc
      simp
  · simp only [List.mem_singleton] at hm
    subst hm
    simp

theorem sub_trtd_td_seg (cs : List Cell) :
    ∀ l : List Tok, sub_trtd (cs.map Tok.td ++ l) = cs.map Tok.td ++ sub_trtd l := by
  induction cs with
  | nil => intro l; rfl
  | cons c cs ih =>
    intro l
    simp only [List.map_cons, List.cons_append, sub_trtd_td, ih]

theorem sub_trtd_malformed (rows : List (List Cell)) (hne : rows ≠ [])
    (hall : ∀ r ∈ rows, r ≠ []) :
    Tok.trOpen :: sub_trtd (rows.flatMap renderRowMal ++ [Tok.tbodyClose])
      = rows.flatMap renderRow ++ [Tok.tbodyClose] := by
  induction rows with
  | nil => exact absurd rfl hne
  | cons r rows' ih =>
    cases rows' with
    | nil =>
      simp only [List.flatMap_cons, List.flatMap_nil, List.append_nil,
        renderRowMal, renderRow]
      rw [List.append_assoc, sub_trtd_td_seg]
      simp only [List.singleton_append, sub_trtd_trClose_end]
      simp
    | cons r' rows'' =>
      have hr' : r' ≠ [] := hall r' (by simp)
      obtain ⟨c', cs', rfl⟩ : ∃ c cs, r' = c :: cs := by
        cases r' with
        | nil => exact absurd rfl hr'
        | cons c cs => exact ⟨c, cs, rfl⟩
      have ihh := ih (by simp)
        (fun x hx => hall x (List.mem_cons_of_mem r hx))
      simp only [List.flatMap_cons, renderRowMal, renderRow, List.map_cons,
        List.cons_append, List.append_assoc, List.singleton_append,
        List.nil_append] at ihh ⊢
      rw [sub_trtd_td] at ihh
      injection ihh with hhead htail
      rw [sub_trtd_td_seg, sub_trtd_trClose_td, htail]

theorem repair_malformed (rows : List (List Cell)) (hne : rows ≠ [])
    (hall : ∀ r ∈ rows, r ≠ []) :
    repair (render_malformed rows) = render_wellformed rows := by
  unfold repair render_malformed render_wellformed
  rw [List.cons_append, sub_tbody_cons_open,
    sub_tbody_eq_self _ (malformed_body_no_open rows),
    sub_trtd_tbodyOpen, sub_trtd_trOpen, sub_trtd_malformed rows hne hall,
    List.cons_append]

theorem extractGo_td_run (cs : List Cell) :
    ∀ (acc : List Cell) (l : List Tok),
    extractGo (cs.map Tok.td ++ l) (some acc) = extractGo l (some (acc ++ cs)) := by
  induction cs with
  | nil => intro acc l; simp
  | cons c cs ih =>
    intro acc l
    simp only [List.map_cons, List.cons_append]
    rw [show extractGo (Tok.td c :: (cs.map Tok.td ++ l)) (some acc)
          = extractGo (cs.map Tok.td ++ l) (some (acc ++ [c])) from rfl, ih]
    simp

theorem extractGo_wellformed_rows (rows : List (List Cell)) :
    extractGo (rows.flatMap renderRow ++ [Tok.tbodyClose]) none = some rows := by
  induction rows with
  | nil => rfl
  | cons r rows' ih =>
    simp only [List.flatMap_cons, renderRow, List.cons_append,
      List.append_assoc, List.singleton_append, List.nil_append]
    rw [extractGo_trOpen, extractGo_td_run, extractGo_trClose, ih]
    simp

theorem extract_wellformed (rows : List (List Cell)) :
    extract (render_wellformed rows) = some rows := by
  have : extract (render_wellformed rows)
      = extractGo (rows.flatMap renderRow ++ [Tok.tbodyClose]) none := rfl
  rw [this, extractGo_wellformed_rows]

/-! ## Claim theorem: Markup Repair round trip -/

/-- C3: for a results table whose body contains at least one cell (each row
being a nonempty cell run, as every results row is), repairing the malformed
markup the site emits and then extracting yields exactly the extraction of
the equivalent well-formed markup, namely the parse of the rows themselves;
a body with zero cells does not trigger repair and extracts to the empty
course sequence. -/
theorem C3_repair_round_trip :
    (∀ (term term_code subject subject_code : String) (rows : List (List Cell)),
        (∀ r ∈ rows, r ≠ []) →
        0 < countTd (render_malformed rows) →
        task_run term term_code subject subject_code (render_malformed rows)
          = extract_courses term term_code subject subject_code
              (render_wellformed rows)
        ∧ extract_courses term term_code subject subject_code
              (render_wellformed rows)
          = parse_table term term_code subject subject_code rows)
    ∧ (∀ (term term_code subject subject_code : String),
        countTd (render_malformed []) = 0
        ∧ task_run term term_code subject subject_code (render_malformed [])
            = extract_courses term term_code subject subject_code
                (render_malformed [])
        ∧ task_run term term_code subject subject_code (render_malformed [])
            = Except.ok []) := by
  constructor
  · intro term term_code subject subject_code rows hall hcells
    have hne : rows ≠ [] := by
      intro hr
      subst hr
      exact absurd hcells (by decide)
    constructor
    · unfold task_run
      rw [if_pos hcells, repair_malformed rows hne hall]
    · unfold extract_courses
      rw [extract_wellformed]
  · intro term term_code subject subject_code
    refine ⟨by decide, ?_, ?_⟩
    · unfold task_run
      rw [if_neg (by decide)]
    · unfold task_run
      rw [if_neg (by decide)]
      rfl

/-- Witness for C3: a one-row, one-cell malformed table is repaired and
extracts to the same course sequence as its well-formed equivalent, which is
the parse of the row. -/
theorem C3_repair_round_trip_witness :
    task_run "Fall 2023" "20233" "Computer Science" "CSCI"
        (render_malformed [[{ link := some "12345", text := "12345" }]])
      = extract_courses "Fall 2023" "20233" "Computer Science" "CSCI"
          (render_wellformed [[{ link := some "12345", text := "12345" }]])
    ∧ extract_courses "Fall 2023" "20233" "Computer Science" "CSCI"
          (render_wellformed [[{ link := some "12345", text := "12345" }]])
      = parse_table "Fall 2023" "20233" "Computer Science" "CSCI"
          [[{ link := some "12345", text := "12345" }]] :=
  C3_repair_round_trip.1 "Fall 2023" "20233" "Computer Science" "CSCI"
    [[{ link := some "12345", text := "12345" }]] (by decide) (by decide)

/-! ## Table Extractor lemmas -/

theorem getCell_ok (cells : List Cell) (i : Nat) (c : Cell) :
    getCell cells i = Except.ok c ↔ cells.get? i = some c := by
  unfold getCell
  cases h : cells.get? i <;> simp

theorem except_bind_ok {α β : Type} (x : Except Err α) (f : α → Except Err β)
    (b : β) :
    (x >>= f) = Except.ok b ↔ ∃ a, x = Except.ok a ∧ f a = Except.ok b := by
  cases x <;> simp [Bind.bind, Except.bind]

theorem parse_row_ok_enr (term term_code subject subject_code : String)
    (cells : List Cell) (course : Course)
    (h : parse_row term term_code subject subject_code cells
        = Except.ok course) :
    ∃ c7 c8, cells.get? 7 = some c7 ∧ pyInt c7.text = some course.proj_enr ∧
      cells.get? 8 = some c8 ∧ pyInt c8.text = some course.curr_enr := by
  unfold parse_row at h
  simp only [except_bind_ok] at h
  obtain ⟨c0, h0, crn, hcrn, c1, h1, c2, h2, c3, h3, c4, h4, c5, h5, c6, h6,
    c7, h7, pe, hpe, c8, h8, ce, hce, c9, h9, c10, h10, hcourse⟩ := h
  simp only [Except.ok.injEq] at hcourse
  subst hcourse
  refine ⟨c7, c8, (getCell_ok _ _ _).mp h7, ?_, (getCell_ok _ _ _).mp h8, ?_⟩
  · unfold toIntE at hpe
    split at hpe
    · rename_i n hn
      simp only [Except.ok.injEq] at hpe
      subst hpe
      simpa using hn
    · exact absurd hpe (by simp)
  · unfold toIntE at hce
    split at hce
    · rename_i n hn
      simp only [Except.ok.injEq] at hce
      subst hce
      simpa using hn
    · exact absurd hce (by simp)

theorem parse_table_ok_pointwise (term term_code subject subject_code : String) :
    ∀ (rows : List (List Cell)) (courses : List Course),
    parse_table term term_code subject subject_code rows = Except.ok courses →
    ∀ (i : Nat) (cells : List Cell), rows.get? i = some cells →
    ∃ course, courses.get? i = some course ∧
      parse_row term term_code subject subject_code cells
        = Except.ok course := by
  intro rows
  induction rows with
  | nil => intro courses h i cells hi; simp at hi
  | cons r rest ih =>
    intro courses h i cells hi
    unfold parse_table at h
    simp only [bind, Except.bind] at h
    split at h
    · exact absurd h (by simp)
    · rename_i c hc
      split at h
      · exact absurd h (by simp)
      · rename_i cs hcs
        simp only [Except.ok.injEq] at h
        subst h
        cases i with
        | zero =>
          simp only [List.get?_cons_zero, Option.some.injEq] at hi
          subst hi
          exact ⟨c, rfl, hc⟩
        | succ n =>
          simp only [List.get?_cons_succ] at hi
          obtain ⟨course, hcourse, hrow⟩ := ih cs hcs n cells hi
          exact ⟨course, by simpa using hcourse, hrow⟩

theorem parse_table_err_of_row_err (term term_code subject subject_code : String) :
    ∀ (rows : List (List Cell)) (cells : List Cell), cells ∈ rows →
    (∃ e, parse_row term term_code subject subject_code cells
        = Except.error e) →
    ∃ e, parse_table term term_code subject subject_code rows
        = Except.error e := by
  intro rows
  induction rows with
  | nil => intro cells hmem; simp at hmem
  | cons r rest ih =>
    intro cells hmem ⟨e, he⟩
    rcases List.mem_cons.mp hmem with rfl | hmem'
    · exact ⟨e, by unfold parse_table; simp only [bind, Except.bind]; rw [he]⟩
    · cases hr : parse_row term term_code subject subject_code r with
      | error e' =>
        exact ⟨e', by unfold parse_table; simp only [bind, Except.bind]; rw [hr]⟩
      | ok c =>
        obtain ⟨e'', he''⟩ := ih cells hmem' ⟨e, he⟩
        refine ⟨e'', ?_⟩
        unfold parse_table
        simp only [bind, Except.bind]
        rw [hr, he'']

theorem parse_row_err_of_bad_int (term term_code subject subject_code : String)
    (cells : List Cell)
    (hbad : (∃ c7, cells.get? 7 = some c7 ∧ pyInt c7.text = none) ∨
            (∃ c8, cells.get? 8 = some c8 ∧ pyInt c8.text = none)) :
    ∃ e, parse_row term term_code subject subject_code cells
        = Except.error e := by
  cases h : parse_row term term_code subject subject_code cells with
  | error e => exact ⟨e, rfl⟩
  | ok course =>
    obtain ⟨c7, c8, h7, hpe, h8, hce⟩ :=
      parse_row_ok_enr term term_code subject subject_code cells course h
    rcases hbad with ⟨c7', h7', hnone⟩ | ⟨c8', h8', hnone⟩
    · rw [h7'] at h7
      simp only [Option.some.injEq] at h7
      subst h7
      rw [hnone] at hpe
      exact absurd hpe (by simp)
    · rw [h8'] at h8
      simp only [Option.some.injEq] at h8
      subst h8
      rw [hnone] at hce
      exact absurd hce (by simp)

/-! ## Claim theorem: enrollment-count parsing -/

/-- C6: a row whose projected-enrollment cell (column 7) or
current-enrollment cell (column 8) is not a valid integer makes
`parse_table` raise, aborting the whole table with no records returned
(the bad row is not skipped and earlier rows are lost); when the table
succeeds, every row's two enrollment cells parsed as the integers stored in
`proj_enr` and `curr_enr`. -/
theorem C6_enrollment_int_errors (term term_code subject subject_code : String)
    (rows : List (List Cell)) :
    (∀ cells ∈ rows,
      ((∃ c7, cells.get? 7 = some c7 ∧ pyInt c7.text = none) ∨
       (∃ c8, cells.get? 8 = some c8 ∧ pyInt c8.text = none)) →
      ∃ e, parse_table term term_code subject subject_code rows
          = Except.error e)
    ∧ (∀ courses, parse_table term term_code subject subject_code rows
          = Except.ok courses →
        ∀ (i : Nat) (cells : List Cell), rows.get? i = some cells →
        ∃ course c7 c8, courses.get? i = some course ∧
          cells.get? 7 = some c7 ∧ pyInt c7.text = some course.proj_enr ∧
          cells.get? 8 = some c8 ∧ pyInt c8.text = some course.curr_enr) := by
  constructor
  · intro cells hmem hbad
    exact parse_table_err_of_row_err term term_code subject subject_code rows
      cells hmem
      (parse_row_err_of_bad_int term term_code subject subject_code cells hbad)
  · intro courses h i cells hi
    obtain ⟨course, hcourse, hrow⟩ :=
      parse_table_ok_pointwise term term_code subject subject_code rows
        courses h i cells hi
    obtain ⟨c7, c8, h7, hpe, h8, hce⟩ :=
      parse_row_ok_enr term term_code subject subject_code cells course hrow
    exact ⟨course, c7, c8, hcourse, h7, hpe, h8, hce⟩

/-- Witness for C6: a table whose single row has `"N/A"` in the
projected-enrollment cell errors out with no records. -/
theorem C6_enrollment_int_errors_witness :
    ∃ e, parse_table "Fall 2023" "20233" "Computer Science" "CSCI"
        [[{ link := some "12345", text := "12345" },
          { link := none, text := "CSCI 141" },
          { link := none, text := "NW" },
          { link := none, text := "Intro" },
          { link := none, text := "Smith" },
          { link := none, text := "3" },
          { link := none, text := "TBA" },
          { link := none, text := "N/A" },
          { link := none, text := "8" },
          { link := none, text := "2" },
          { link := none, text := "OPEN" }]]
      = Except.error e :=
  (C6_enrollment_int_errors "Fall 2023" "20233" "Computer Science" "CSCI"
      [[{ link := some "12345", text := "12345" },
        { link := none, text := "CSCI 141" },
        { link := none, text := "NW" },
        { link := none, text := "Intro" },
        { link := none, text := "Smith" },
        { link := none, text := "3" },
        { link := none, text := "TBA" },
        { link := none, text := "N/A" },
        { link := none, text := "8" },
        { link := none, text := "2" },
        { link := none, text := "OPEN" }]]).1 _
    (List.mem_cons_self _ _)
    (Or.inl ⟨{ link := none, text := "N/A" }, by decide, by decide⟩)

/-! ## Catalog Index Fetcher lemmas -/

theorem parse_select_newline_texts (children : List Child)
    (h : ∀ s, Child.text s ∈ children → s = "\n") :
    parse_select children = Except.ok (keptEntries children) := by
  induction children with
  | nil => rfl
  | cons el rest ih =>
    have ih' := ih (fun s hs => h s (List.mem_cons_of_mem el hs))
    cases el with
    | text s =>
      have hs : s = "\n" := h s (List.mem_cons_self _ _)
      subst hs
      unfold parse_select
      simp [selStep, bind, Except.bind, ih', keptEntries, List.filterMap_cons]
    | opt v n =>
      by_cases hv : v = "0" <;>
        simp [parse_select, selStep, bind, Except.bind, ih', keptEntries,
          List.filterMap_cons, hv]

theorem parse_select_other_text (children : List Child) (s : String)
    (hs : s ≠ "\n") (hmem : Child.text s ∈ children) :
    ∃ e, parse_select children = Except.error e := by
  induction children with
  | nil => simp at hmem
  | cons el rest ih =>
    rcases List.mem_cons.mp hmem with heq | hmem'
    · refine ⟨Err.typeError, ?_⟩
      rw [← heq]
      unfold parse_select
      simp [selStep, hs, bind, Except.bind]
    · cases hsel : selStep el with
      | error e =>
        exact ⟨e, by unfold parse_select; simp [bind, Except.bind, hsel]⟩
      | ok o =>
        obtain ⟨e, he⟩ := ih hmem'
        exact ⟨e, by unfold parse_select; simp [bind, Except.bind, hsel, he]⟩

/-! ## Claim theorems: Catalog Index Fetcher -/

/-- C8 counterexample: the claim that every whitespace-only child node is
skipped fails on the code: `parse_select` skips only the literal newline
text node, and a child consisting of a single space raises `TypeError`
(subscripting a text node) instead of being skipped. -/
theorem C8_counterexample :
    parse_select [Child.text " "] = Except.error Err.typeError
    ∧ parse_select [Child.text "\n"] = Except.ok [] :=
  ⟨rfl, rfl⟩

/-- C8 amended: `parse_select` returns the selection-list entries as ordered
{name, code} descriptors, skipping every entry whose code is the literal
`"0"` and skipping every child node equal to the literal newline string
`"\n"`, and including every other option entry; a text child other than
`"\n"` (even whitespace-only) is not skipped but raises an error. -/
theorem C8_amended_newline_only_skip :
    (∀ children : List Child, (∀ s, Child.text s ∈ children → s = "\n") →
        parse_select children = Except.ok (keptEntries children))
    ∧ (∀ (children : List Child) (s : String), s ≠ "\n" →
        Child.text s ∈ children →
        ∃ e, parse_select children = Except.error e) :=
  ⟨parse_select_newline_texts, parse_select_other_text⟩

/-- Witness for C8 amended: a landing-page list with a newline text node, a
placeholder option with code `"0"` and a real option yields exactly the real
option, and a space text node makes the call fail. -/
theorem C8_amended_newline_only_skip_witness :
    parse_select
        [Child.text "\n", Child.opt "0" "placeholder",
         Child.opt "20233" "Fall 2023"]
      = Except.ok [{ name := "Fall 2023", code := "20233" }]
    ∧ ∃ e, parse_select [Child.text " "] = Except.error e := by
  constructor
  · have h := C8_amended_newline_only_skip.1
      [Child.text "\n", Child.opt "0" "placeholder",
       Child.opt "20233" "Fall 2023"]
      (by
        intro s hs
        simp only [List.mem_cons] at hs
        rcases hs with h | h | h | h <;> simp_all)
    rw [h]
    rfl
  · exact C8_amended_newline_only_skip.2 [Child.text " "] " " (by decide)
      (List.mem_cons_self _ _)

/-! ## Persistence Formatter lemmas -/

theorem sepJoin_go (s : String) :
    ∀ (as : List String) (acc : String),
    String.intercalate.go acc s as = acc ++ sepJoin s as := by
  intro as
  induction as with
  | nil => intro acc; simp [sepJoin, String.intercalate.go]
  | cons a as ih =>
    intro acc
    rw [show String.intercalate.go acc s (a :: as)
          = String.intercalate.go (acc ++ s ++ a) s as from rfl, ih,
      show sepJoin s (a :: as) = s ++ a ++ sepJoin s as from rfl]
    simp [String.append_assoc]

theorem intercalate_eq_sepJoin (s a : String) (as : List String) :
    String.intercalate s (a :: as) = a ++ sepJoin s as := by
  rw [show String.intercalate s (a :: as)
        = String.intercalate.go a s as from rfl, sepJoin_go]

theorem sepJoin_contains (s : String) :
    ∀ (l : List String) (a : String), a ∈ l →
    ∃ u v, sepJoin s l = u ++ a ++ v := by
  intro l
  induction l with
  | nil => intro a ha; simp at ha
  | cons x rest ih =>
    intro a ha
    rcases List.mem_cons.mp ha with rfl | h
    · exact ⟨s, sepJoin s rest,
        show sepJoin s (a :: rest) = s ++ a ++ sepJoin s rest from rfl⟩
    · obtain ⟨u, v, huv⟩ := ih a h
      refine ⟨s ++ x ++ u, v, ?_⟩
      rw [show sepJoin s (x :: rest) = s ++ x ++ sepJoin s rest from rfl, huv]
      simp [String.append_assoc]

theorem json_to_times_round_trip (times : List (Char × TimeSpan)) :
    json_to_times (times_to_json times) = some times := by
  induction times with
  | nil => rfl
  | cons p rest ih =>
    obtain ⟨d, sp⟩ := p
    show json_to_times ((String.mk [d], spanDoc sp) :: times_to_json rest)
        = some ((d, sp) :: rest)
    simp only [json_to_times, ih]
    rfl

/-! ## Claim theorem: Persistence Formatter -/

/-- C9: the attributes sequence is serialized as an array literal holding
all of its values in their original order (`["A", "B"]` gives
`{"A", "B"}`, and in general every element appears quoted inside the
literal), and the time mapping serializes to the day-keyed start/end
hour/minute document whose deserialization yields back the same mapping. -/
theorem C9_serialization_round_trip :
    list_to_db_array ["A", "B"] = "\x7b\"A\", \"B\"\x7d"
    ∧ (∀ (li : List String) (a : String), a ∈ li →
        ∃ u v, list_to_db_array li = u ++ ("\"" ++ a ++ "\"") ++ v)
    ∧ (∀ times, json_to_times (times_to_json times) = some times) := by
  refine ⟨by decide, fun li a ha => ?_, json_to_times_round_trip⟩
  unfold list_to_db_array
  cases li with
  | nil => simp at ha
  | cons x rest =>
    have hmem : ("\"" ++ a ++ "\"")
        ∈ (x :: rest).map (fun s => "\"" ++ s ++ "\"") :=
      List.mem_map_of_mem _ ha
    rw [List.map_cons, intercalate_eq_sepJoin]
    rcases List.mem_cons.mp hmem with heq | hmem'
    · refine ⟨"\x7b", sepJoin ", " (rest.map (fun s => "\"" ++ s ++ "\"")) ++ "\x7d", ?_⟩
      simp only [] at heq
      rw [← heq]
      simp [String.append_assoc]
    · obtain ⟨u, v, huv⟩ :=
        sepJoin_contains ", " (rest.map (fun s => "\"" ++ s ++ "\"")) _ hmem'
      refine ⟨"\x7b" ++ ("\"" ++ x ++ "\"") ++ u, v ++ "\x7d", ?_⟩
      rw [huv]
      simp [String.append_assoc]

/-- Witness for C9: the value `"B"` of `["A", "B"]` appears quoted inside
the serialized array literal. -/
theorem C9_serialization_round_trip_witness :
    ∃ u v, list_to_db_array ["A", "B"] = u ++ ("\"" ++ "B" ++ "\"") ++ v :=
  C9_serialization_round_trip.2.1 ["A", "B"] "B" (by decide)

end Scrape
